import Mathlib

/-!
Shallow embedding of `src/scripts/board.py` (power_supply_tester).

The board session is a Python object with mutable fields; we model it as an
explicit `BoardState` record threaded through the operations.  Hardware
(firmata analog reads, the wall clock, the time deltas seen by the PID) is
modelled by an `Env` of streams indexed by a global read counter, so every
operation is a pure function of the state and the environment.  Python
exceptions (`ValueError`, `KeyError`) are modelled by `Except` with the
state at raise time attached to the error.  Python floats are modelled as
rationals.
-/

namespace PowerSupplyTester

/-- Errors the board methods can raise: `ValueError("Bad arguments")` in
`read_voltages`, `ValueError("The resistance is too low! ...")` in
`test_resistance`, and a `KeyError` from reading `self.voltages["vin"]`
before any voltage has ever been read. -/
inductive Err where
  | badArgs : Err
  | resistanceTooLow : Err
  | keyError : Err
  deriving DecidableEq, Repr

/-- The `self.voltages` dict once populated: one median per analog channel. -/
structure Voltages where
  vload : ℚ
  vin : ℚ
  deriving DecidableEq, Repr

/-- The `self.voltages_history` dict: three parallel append-only lists. -/
structure Hist where
  time : List ℚ
  vload : List ℚ
  vin : List ℚ
  deriving DecidableEq, Repr

/-- The mutable fields of the `Board` object that the control logic touches.
`reads` counts how many read iterations have happened over the session; it
indexes the environment's sample streams. -/
structure BoardState where
  gate_thresh : ℚ
  amp_gain : ℚ
  resistance : ℚ
  sense_voltage_divider : ℚ
  vcc : ℚ
  value_to_voltage : ℚ
  voltages : Option Voltages
  hist : Hist
  reads : ℕ
  deriving DecidableEq, Repr

/-- The hardware environment: `vloadSample k` / `vinSample k` are what
`self.board.analog[pin].read()` returns on the `k`-th read iteration of the
session (`none` models firmata returning `None`), `clock k` is the value of
`self.time()` there, `dt k` is the time delta the PID sees on a call made
after `k` reads, and `trIters` is how many times the wall-clock condition
`time.time() - tstart < test_time` of `test_resistance` evaluates to true. -/
structure Env where
  vloadSample : ℕ → Option ℚ
  vinSample : ℕ → Option ℚ
  clock : ℕ → ℚ
  dt : ℕ → ℚ
  trIters : ℕ

/-- `Board.__init__` (the fields the control logic uses).  Note the source
assigns the literal `0.48` to `self.gate_thresh`, not the `gate_thresh`
parameter, and `self.value_to_voltage = 5.2 * self.sense_voltage_divider`. -/
def Board.init (amp_gain sense_voltage_divider resistance gate_thresh vcc : ℚ) :
    BoardState :=
  { gate_thresh := 0.48
    amp_gain := amp_gain
    resistance := resistance
    sense_voltage_divider := sense_voltage_divider
    vcc := vcc
    value_to_voltage := 5.2 * sense_voltage_divider
    voltages := none
    hist := { time := [], vload := [], vin := [] }
    reads := 0 }

/-- One raw hardware sample turned into a voltage: `if value is None: value = 0`
followed by `value = value * self.value_to_voltage`. -/
def scaleSample (v2v : ℚ) (raw : Option ℚ) : ℚ :=
  raw.getD 0 * v2v

/-- One iteration of the sampling loop body of `read_voltages`: both analog
pins are read (insertion order of `self.analog_pins`: `vload` then `vin`),
each scaled sample is appended to the per-call measurements and to the
session history, then the timestamp is appended to both. -/
def readStep (env : Env) (v2v : ℚ) (k : ℕ) (m h : Hist) : Hist × Hist :=
  let vl := scaleSample v2v (env.vloadSample k)
  let vi := scaleSample v2v (env.vinSample k)
  let t := env.clock k
  ({ time := m.time ++ [t], vload := m.vload ++ [vl], vin := m.vin ++ [vi] },
   { time := h.time ++ [t], vload := h.vload ++ [vl], vin := h.vin ++ [vi] })

/-- The `for _ in range(times_to_read)` loop of `read_voltages`, starting at
global read index `k`, carrying the measurements `m` and the history `h`. -/
def readIter (env : Env) (v2v : ℚ) : ℕ → ℕ → Hist → Hist → Hist × Hist
  | 0, _, m, h => (m, h)
  | n + 1, k, m, h =>
    let p := readStep env v2v k m h
    readIter env v2v n (k + 1) p.1 p.2

/-- `statistics.median`: sort, take the middle element for odd length, the
mean of the two middle elements for even length.  (The source imports it as
`from statistics import median`; all call sites pass nonempty lists.  On a
linear order the sorted list is unique, so the choice of sorting algorithm
is immaterial; insertion sort keeps the model kernel-computable.) -/
def median (l : List ℚ) : ℚ :=
  let s := l.insertionSort (fun a b => a ≤ b)
  if l.length % 2 = 1 then s.getD (l.length / 2) 0
  else (s.getD (l.length / 2 - 1) 0 + s.getD (l.length / 2) 0) / 2

/-- `Board.read_voltages(times_to_read, wait_time_between_reads)`.  Checks
arguments, samples both channels `times_to_read` times (appending every
scaled sample and timestamp to the history), stores and returns the per
channel median.  `time.sleep` has no effect on the model. -/
def read_voltages (env : Env) (s : BoardState) (times_to_read : ℤ)
    (wait_time_between_reads : ℚ) :
    Except (Err × BoardState) (BoardState × Voltages) :=
  if times_to_read ≤ 0 ∨ wait_time_between_reads ≤ 0 then
    .error (.badArgs, s)
  else
    let n := times_to_read.toNat
    let mh := readIter env s.value_to_voltage n s.reads
      { time := [], vload := [], vin := [] } s.hist
    let med : Voltages := { vload := median mh.1.vload, vin := median mh.1.vin }
    .ok ({ s with voltages := some med, hist := mh.2, reads := s.reads + n }, med)

/-- State of the `simple_pid.PID` controller object (the external dependency
the source drives).  Modelled from that library: proportional term
`Kp * error`, integral accumulated as `Ki * error * dt` and clamped to the
output limits, derivative `-Kd * d_input / dt`, final output clamped to the
output limits; a call arriving sooner than `sample_time` after a previous
one returns the cached last output unchanged. -/
structure PIDState where
  kp : ℚ
  ki : ℚ
  kd : ℚ
  setpoint : ℚ
  outMin : ℚ
  outMax : ℚ
  sampleTime : ℚ
  integral : ℚ
  lastInput : Option ℚ
  lastOutput : Option ℚ
  deriving DecidableEq, Repr

/-- `simple_pid`'s `_clamp(value, (lower, upper))`. -/
def clamp (v lo hi : ℚ) : ℚ :=
  if v > hi then hi else if v < lo then lo else v

/-- `PID.__call__(input_)` with time delta `dt` supplied by the environment.
Division by a zero `dt` cannot occur in the library (it substitutes a tiny
positive delta); rational division by zero is total anyway. -/
def pidCall (p : PIDState) (input dt : ℚ) : PIDState × ℚ :=
  match p.lastOutput with
  | some out =>
    if dt < p.sampleTime then (p, out) else pidCompute p input dt
  | none => pidCompute p input dt
where
  pidCompute (p : PIDState) (input dt : ℚ) : PIDState × ℚ :=
    let err := p.setpoint - input
    let dInput := input - p.lastInput.getD input
    let proportional := p.kp * err
    let integral := clamp (p.integral + p.ki * err * dt) p.outMin p.outMax
    let derivative := -(p.kd * dInput / dt)
    let output := clamp (proportional + integral + derivative) p.outMin p.outMax
    ({ p with integral := integral, lastInput := some input,
              lastOutput := some output }, output)

/-- The `while tries_count < max_tries` loop of `set_vload`: read the
voltages (with `read_voltages`'s default arguments `5` and `0.001`), feed
the stored `vload` median to the PID, add the gate threshold, and write the
result to the PWM output.  The writes are collected in order in `ws`. -/
def vloadLoop (env : Env) : ℕ → BoardState → PIDState → List ℚ →
    Except (Err × BoardState) (BoardState × PIDState × List ℚ)
  | 0, s, p, ws => .ok (s, p, ws)
  | n + 1, s, p, ws =>
    match read_voltages env s 5 (1 / 1000) with
    | .error e => .error e
    | .ok (s1, med) =>
      let pr := pidCall p med.vload (env.dt s1.reads)
      let output := pr.2 + s1.gate_thresh
      vloadLoop env n s1 pr.1 (ws ++ [output])

/-- `Board.set_vload(voltage, max_tries)`: builds a fresh
`PID(0.05, 0.3, 0.00, voltage)` with `output_limits = (0, 1 - self.gate_thresh)`
(and the library's default `sample_time = 0.01`), then runs the adjustment
loop at most `max_tries` times.  Returns the final state and the list of
values written to the PWM output. -/
def set_vload (env : Env) (s : BoardState) (voltage : ℚ) (max_tries : ℤ) :
    Except (Err × BoardState) (BoardState × List ℚ) :=
  let p : PIDState :=
    { kp := 0.05, ki := 0.3, kd := 0, setpoint := voltage,
      outMin := 0, outMax := 1 - s.gate_thresh, sampleTime := 0.01,
      integral := 0, lastInput := none, lastOutput := none }
  match vloadLoop env max_tries.toNat s p [] with
  | .error e => .error e
  | .ok (s', _, ws) => .ok (s', ws)

/-- `Board.set_current(current)`: `voltage_to_set = current * self.resistance`
followed by `self.set_vload(voltage_to_set)` with the default
`max_tries = 10`; the remaining statements only print. -/
def set_current (env : Env) (s : BoardState) (current : ℚ) :
    Except (Err × BoardState) (BoardState × List ℚ) :=
  set_vload env s (current * s.resistance) 10

/-- `np.linspace(start, stop, num)` with the default `endpoint=True`:
`num` evenly spaced points from `start` to `stop`.  For `num = 1` numpy
returns `[start]`, which the formula also yields since rational division
by zero is zero. -/
def linspace (start stop : ℚ) (num : ℕ) : List ℚ :=
  if num = 0 then []
  else (List.range num).map fun i : ℕ =>
    start + (i : ℚ) * ((stop - start) / ((num - 1 : ℕ) : ℚ))

/-- One recorded row of `search_current_limit`'s `data` list. -/
structure SweepRow where
  i : ℕ
  vin : ℚ
  vload : ℚ
  current : ℚ
  deriving DecidableEq, Repr

/-- The `for i, s in enumerate(points)` loop of `search_current_limit`:
apply each current target with `set_current`, then record the step index,
the stored medians, and `vload / self.resistance`. -/
def sweepLoop (env : Env) : List (ℕ × ℚ) → BoardState → List SweepRow →
    Except (Err × BoardState) (BoardState × List SweepRow)
  | [], s, data => .ok (s, data)
  | (i, c) :: rest, s, data =>
    match set_current env s c with
    | .error e => .error e
    | .ok (s', _) =>
      match s'.voltages with
      | none => .error (.keyError, s')
      | some v =>
        let row : SweepRow :=
          { i := i, vin := v.vin, vload := v.vload, current := v.vload / s'.resistance }
        sweepLoop env rest s' (data ++ [row])

/-- `Board.search_current_limit(iend, istart, isteps)`: sweeps over the
linearly spaced current targets `np.linspace(istart, iend, num=isteps)`;
the trailing `DataFrame`/CSV statements only export the collected rows. -/
def search_current_limit (env : Env) (s : BoardState) (iend istart : ℚ)
    (isteps : ℕ) :
    Except (Err × BoardState) (BoardState × List SweepRow) :=
  sweepLoop env ((linspace istart iend isteps).enum) s []

/-- The `while (time.time() - tstart) < test_time` loop of `test_resistance`:
each pass reads `self.voltages["vin"]` (a `KeyError` if no voltage was ever
stored), derives the target voltage, and runs `set_vload` with its default
`max_tries = 10`.  The number of passes is wall-clock driven, so the
environment supplies it. -/
def trLoop (env : Env) (resistance : ℚ) : ℕ → BoardState →
    Except (Err × BoardState) BoardState
  | 0, s => .ok s
  | n + 1, s =>
    match s.voltages with
    | none => .error (.keyError, s)
    | some v =>
      let current_to_set := v.vin / resistance
      let voltage_to_set := current_to_set * s.resistance
      match set_vload env s voltage_to_set 10 with
      | .error e => .error e
      | .ok (s', _) => trLoop env resistance n s'

/-- `Board.test_resistance(resistance, test_time)`: raises
`ValueError("The resistance is too low! It should be higher than Rload!")`
when `resistance <= self.resistance`, as its first statement, before any
hardware access; otherwise runs the wall-clock loop. -/
def test_resistance (env : Env) (s : BoardState) (resistance : ℚ)
    (test_time : ℚ) : Except (Err × BoardState) BoardState :=
  if resistance ≤ s.resistance then .error (.resistanceTooLow, s)
  else trLoop env resistance env.trIters s

/-- The board state an operation ends in, whether it returned or raised:
a Python exception leaves the object in the state it had at raise time. -/
def endState : Except (Err × BoardState) (BoardState × Voltages) → BoardState
  | .error (_, s) => s
  | .ok (s, _) => s

/-- End state of a `set_vload` / `set_current` call. -/
def endStateW : Except (Err × BoardState) (BoardState × List ℚ) → BoardState
  | .error (_, s) => s
  | .ok (s, _) => s

/-- End state of a `search_current_limit` call. -/
def endStateS : Except (Err × BoardState) (BoardState × List SweepRow) → BoardState
  | .error (_, s) => s
  | .ok (s, _) => s

/-- End state of a `test_resistance` call. -/
def endStateT : Except (Err × BoardState) BoardState → BoardState
  | .error (_, s) => s
  | .ok s => s

/-- The medians `read_voltages` hands back, `none` when it raised. -/
def readResultMed (env : Env) (s : BoardState) (t : ℤ) (w : ℚ) : Option Voltages :=
  match read_voltages env s t w with
  | .error _ => none
  | .ok (_, med) => some med

/-- The sequence of values a `set_vload` call writes to the PWM output
(empty when the call raised). -/
def vloadWrites (env : Env) (s : BoardState) (voltage : ℚ) (max_tries : ℤ) :
    List ℚ :=
  match set_vload env s voltage max_tries with
  | .error _ => []
  | .ok (_, ws) => ws

/-- The list `f k, f (k+1), ..., f (k+n-1)` of environment values consumed
by `n` consecutive read iterations starting at global index `k`. -/
def sampledList (f : ℕ → ℚ) (k n : ℕ) : List ℚ :=
  (List.range n).map fun j => f (k + j)

/-- The scaled `vload` samples a call to `read_voltages` starting at state
`s` takes (`n` = number of reads). -/
def vloadList (env : Env) (s : BoardState) (n : ℕ) : List ℚ :=
  sampledList (fun j => scaleSample s.value_to_voltage (env.vloadSample j)) s.reads n

/-- The scaled `vin` samples such a call takes. -/
def vinList (env : Env) (s : BoardState) (n : ℕ) : List ℚ :=
  sampledList (fun j => scaleSample s.value_to_voltage (env.vinSample j)) s.reads n

/-- The timestamps such a call appends. -/
def stampList (env : Env) (s : BoardState) (n : ℕ) : List ℚ :=
  sampledList env.clock s.reads n

/-- History `h'` extends history `h`: every channel of `h` is an initial
segment of the same channel of `h'`. -/
def histExtends (h h' : Hist) : Prop :=
  (∃ t1, h'.time = h.time ++ t1) ∧ (∃ t2, h'.vload = h.vload ++ t2) ∧
    (∃ t3, h'.vin = h.vin ++ t3)

/-- The medians a successful `read_voltages` call of `n` reads from state
`s` computes and stores. -/
def readOkMed (env : Env) (s : BoardState) (n : ℕ) : Voltages :=
  { vload := median (vloadList env s n), vin := median (vinList env s n) }

/-- The state a successful `read_voltages` call of `n` reads leaves behind. -/
def readOkState (env : Env) (s : BoardState) (n : ℕ) : BoardState :=
  { s with voltages := some (readOkMed env s n),
           hist := { time := s.hist.time ++ stampList env s n,
                     vload := s.hist.vload ++ vloadList env s n,
                     vin := s.hist.vin ++ vinList env s n },
           reads := s.reads + n }

/-- Invariant of the PID state inside a `set_vload` run with gate threshold
`g`: the output limits are `(0, 1 - g)` and any cached output already lies
within them. -/
def pidOk (g : ℚ) (p : PIDState) : Prop :=
  p.outMin = 0 ∧ p.outMax = 1 - g ∧
    ∀ o, p.lastOutput = some o → 0 ≤ o ∧ o ≤ 1 - g

/-- A concrete environment used to instantiate the theorems. -/
def sampleEnv : Env :=
  { vloadSample := fun _ => some (1 / 10)
    vinSample := fun _ => some (1 / 5)
    clock := fun k => k
    dt := fun _ => 1 / 50
    trIters := 1 }

/-- A concrete board session (`amp_gain 10`, unit divider, `resistance 10`,
requested gate threshold `0.48`, `vcc 5`). -/
def sampleBoard : BoardState :=
  Board.init 10 1 10 0.48 5

/-! ### Helper lemmas -/

lemma sampledList_succ (f : ℕ → ℚ) (k n : ℕ) :
    sampledList f k (n + 1) = f k :: sampledList f (k + 1) n := by
  unfold sampledList
  rw [List.range_succ_eq_map, List.map_cons, List.map_map]
  refine congrArg₂ List.cons (by rw [Nat.add_zero]) (List.map_congr_left ?_)
  intro a _
  simp only [Function.comp_apply]
  congr 1
  omega

lemma length_sampledList (f : ℕ → ℚ) (k n : ℕ) :
    (sampledList f k n).length = n := by
  unfold sampledList
  rw [List.length_map, List.length_range]

lemma mem_sampledList (f : ℕ → ℚ) (k n : ℕ) (x : ℚ) (hx : x ∈ sampledList f k n) :
    ∃ j, j < n ∧ x = f (k + j) := by
  unfold sampledList at hx
  obtain ⟨j, hj, rfl⟩ := List.mem_map.1 hx
  exact ⟨j, List.mem_range.1 hj, rfl⟩

lemma readIter_spec (env : Env) (v2v : ℚ) :
    ∀ (n k : ℕ) (m h : Hist),
      readIter env v2v n k m h =
        ({ time := m.time ++ sampledList env.clock k n,
           vload := m.vload ++
             sampledList (fun j => scaleSample v2v (env.vloadSample j)) k n,
           vin := m.vin ++
             sampledList (fun j => scaleSample v2v (env.vinSample j)) k n },
         { time := h.time ++ sampledList env.clock k n,
           vload := h.vload ++
             sampledList (fun j => scaleSample v2v (env.vloadSample j)) k n,
           vin := h.vin ++
             sampledList (fun j => scaleSample v2v (env.vinSample j)) k n })
  | 0, k, m, h => by
      simp [readIter, sampledList]
  | n + 1, k, m, h => by
      rw [readIter, readIter_spec env v2v n (k + 1)]
      simp [readStep, sampledList_succ]

lemma read_voltages_ok (env : Env) (s : BoardState) (t : ℤ) (w : ℚ)
    (ht : 0 < t) (hw : 0 < w) :
    read_voltages env s t w = .ok (readOkState env s t.toNat, readOkMed env s t.toNat) := by
  unfold read_voltages
  rw [if_neg (by push_neg; exact ⟨ht, hw⟩)]
  dsimp only
  rw [readIter_spec]
  simp only [readOkState, readOkMed, vloadList, vinList, stampList, List.nil_append]

lemma getD_eq_zero_of_all_zero (l : List ℚ) (h : ∀ x ∈ l, x = 0) (i : ℕ) :
    l.getD i 0 = 0 := by
  rcases hx : l[i]? with _ | a
  · simp [List.getD_eq_getElem?_getD, hx]
  · have ha : a ∈ l := List.getElem?_mem hx
    simp [List.getD_eq_getElem?_getD, hx, h a ha]

lemma median_all_zero (l : List ℚ) (h : ∀ x ∈ l, x = 0) : median l = 0 := by
  have hs : ∀ x ∈ l.insertionSort (fun a b => a ≤ b), x = 0 := fun x hx =>
    h x ((List.perm_insertionSort _ l).mem_iff.1 hx)
  show (if l.length % 2 = 1 then
          (l.insertionSort fun a b => a ≤ b).getD (l.length / 2) 0
        else
          ((l.insertionSort fun a b => a ≤ b).getD (l.length / 2 - 1) 0 +
            (l.insertionSort fun a b => a ≤ b).getD (l.length / 2) 0) / 2) = 0
  split
  · exact getD_eq_zero_of_all_zero _ hs _
  · rw [getD_eq_zero_of_all_zero _ hs, getD_eq_zero_of_all_zero _ hs]
    norm_num

lemma clamp_mem (v lo hi : ℚ) (h : lo ≤ hi) :
    lo ≤ clamp v lo hi ∧ clamp v lo hi ≤ hi := by
  unfold clamp
  split_ifs with h1 h2 <;> constructor <;> linarith

lemma histExtends_refl (h : Hist) : histExtends h h :=
  ⟨⟨[], by simp⟩, ⟨[], by simp⟩, ⟨[], by simp⟩⟩

lemma histExtends_trans (h1 h2 h3 : Hist) (a : histExtends h1 h2)
    (b : histExtends h2 h3) : histExtends h1 h3 := by
  obtain ⟨⟨t1, ht1⟩, ⟨t2, ht2⟩, ⟨t3, ht3⟩⟩ := a
  obtain ⟨⟨u1, hu1⟩, ⟨u2, hu2⟩, ⟨u3, hu3⟩⟩ := b
  exact ⟨⟨t1 ++ u1, by simp [hu1, ht1]⟩, ⟨t2 ++ u2, by simp [hu2, ht2]⟩,
    ⟨t3 ++ u3, by simp [hu3, ht3]⟩⟩

lemma pidCompute_spec (p : PIDState) (input dt : ℚ) (hle : p.outMin ≤ p.outMax) :
    p.outMin ≤ (pidCall.pidCompute p input dt).2 ∧
    (pidCall.pidCompute p input dt).2 ≤ p.outMax ∧
    (pidCall.pidCompute p input dt).1.outMin = p.outMin ∧
    (pidCall.pidCompute p input dt).1.outMax = p.outMax ∧
    (pidCall.pidCompute p input dt).1.lastOutput =
      some (pidCall.pidCompute p input dt).2 := by
  unfold pidCall.pidCompute
  exact ⟨(clamp_mem _ _ _ hle).1, (clamp_mem _ _ _ hle).2, rfl, rfl, rfl⟩

lemma pidCall_spec (g : ℚ) (p : PIDState) (input dt : ℚ) (hg : g ≤ 1)
    (hp : pidOk g p) :
    pidOk g (pidCall p input dt).1 ∧
    0 ≤ (pidCall p input dt).2 ∧ (pidCall p input dt).2 ≤ 1 - g := by
  obtain ⟨hmin, hmax, hlast⟩ := hp
  have hle : p.outMin ≤ p.outMax := by rw [hmin, hmax]; linarith
  obtain ⟨h1, h2, h3, h4, h5⟩ := pidCompute_spec p input dt hle
  have hcompOk : pidOk g (pidCall.pidCompute p input dt).1 ∧
      0 ≤ (pidCall.pidCompute p input dt).2 ∧
      (pidCall.pidCompute p input dt).2 ≤ 1 - g := by
    refine ⟨⟨by rw [h3, hmin], by rw [h4, hmax], ?_⟩, by rw [← hmin]; exact h1,
      by rw [← hmax]; exact h2⟩
    intro o ho
    rw [h5] at ho
    obtain rfl : (pidCall.pidCompute p input dt).2 = o := Option.some_injective _ ho
    exact ⟨by rw [← hmin]; exact h1, by rw [← hmax]; exact h2⟩
  unfold pidCall
  rcases hl : p.lastOutput with _ | out
  · exact hcompOk
  · dsimp only
    by_cases hdt : dt < p.sampleTime
    · rw [if_pos hdt]
      exact ⟨⟨hmin, hmax, fun o ho => hlast o ho⟩, (hlast out hl).1, (hlast out hl).2⟩
    · rw [if_neg hdt]
      exact hcompOk

lemma vloadLoop_run (env : Env) (n : ℕ) :
    ∀ (s : BoardState) (p : PIDState) (ws : List ℚ),
      ∃ s' p' ws2,
        vloadLoop env n s p ws = .ok (s', p', ws ++ ws2) ∧
        ws2.length = n ∧
        s'.gate_thresh = s.gate_thresh ∧
        s'.resistance = s.resistance ∧
        (0 < n → s'.voltages.isSome = true) ∧
        (n = 0 → s' = s) ∧
        histExtends s.hist s'.hist ∧
        (s.gate_thresh ≤ 1 → pidOk s.gate_thresh p →
          ∀ x ∈ ws2, s.gate_thresh ≤ x ∧ x ≤ 1) := by
  induction n with
  | zero =>
    intro s p ws
    exact ⟨s, p, [], by simp [vloadLoop], rfl, rfl, rfl,
      fun h => absurd h (lt_irrefl 0), fun _ => rfl, histExtends_refl _,
      fun _ _ x hx => absurd hx (List.not_mem_nil x)⟩
  | succ n ih =>
    intro s p ws
    have hrv : read_voltages env s 5 (1 / 1000) =
        .ok (readOkState env s 5, readOkMed env s 5) := by
      simpa using read_voltages_ok env s 5 (1 / 1000) (by norm_num) (by norm_num)
    obtain ⟨s', p', ws2, hloop, hlen, hg, hres, hsome, hzero, hhist, hbound⟩ :=
      ih (readOkState env s 5)
        (pidCall p (readOkMed env s 5).vload (env.dt (readOkState env s 5).reads)).1
        (ws ++ [(pidCall p (readOkMed env s 5).vload
          (env.dt (readOkState env s 5).reads)).2 + (readOkState env s 5).gate_thresh])
    have hstep : histExtends s.hist (readOkState env s 5).hist :=
      ⟨⟨stampList env s 5, rfl⟩, ⟨vloadList env s 5, rfl⟩, ⟨vinList env s 5, rfl⟩⟩
    refine ⟨s', p',
      ((pidCall p (readOkMed env s 5).vload
        (env.dt (readOkState env s 5).reads)).2 + (readOkState env s 5).gate_thresh)
        :: ws2, ?_, ?_, ?_, ?_, ?_, ?_, ?_, ?_⟩
    · rw [vloadLoop, hrv]
      rw [show ws ++ ((pidCall p (readOkMed env s 5).vload
          (env.dt (readOkState env s 5).reads)).2 +
            (readOkState env s 5).gate_thresh) :: ws2
        = (ws ++ [(pidCall p (readOkMed env s 5).vload
          (env.dt (readOkState env s 5).reads)).2 +
            (readOkState env s 5).gate_thresh]) ++ ws2 by simp]
      exact hloop
    · simpa using hlen
    · exact hg
    · exact hres
    · intro _
      rcases Nat.eq_zero_or_pos n with hn | hn
      · rw [hzero hn, hn] at *
        rfl
      · exact hsome hn
    · intro h
      exact absurd h (Nat.succ_ne_zero n)
    · exact histExtends_trans _ _ _ hstep hhist
    · intro hg1 hpok x hx
      have hps := pidCall_spec s.gate_thresh p (readOkMed env s 5).vload
        (env.dt (readOkState env s 5).reads) hg1 hpok
      rcases List.mem_cons.1 hx with rfl | hx2
      · have hgeq : (readOkState env s 5).gate_thresh = s.gate_thresh := rfl
        rw [hgeq]
        exact ⟨by linarith [hps.2.1], by linarith [hps.2.2]⟩
      · exact hbound hg1 hps.1 x hx2


lemma set_vload_run (env : Env) (s : BoardState) (voltage : ℚ) (max_tries : ℤ) :
    ∃ s' ws,
      set_vload env s voltage max_tries = .ok (s', ws) ∧
      ws.length = max_tries.toNat ∧
      s'.gate_thresh = s.gate_thresh ∧
      s'.resistance = s.resistance ∧
      (0 < max_tries.toNat → s'.voltages.isSome = true) ∧
      histExtends s.hist s'.hist ∧
      (s.gate_thresh ≤ 1 → ∀ x ∈ ws, s.gate_thresh ≤ x ∧ x ≤ 1) := by
  obtain ⟨s', p', ws2, hloop, hlen, hg, hres, hsome, _, hhist, hbound⟩ :=
    vloadLoop_run env max_tries.toNat s
      { kp := 0.05, ki := 0.3, kd := 0, setpoint := voltage,
        outMin := 0, outMax := 1 - s.gate_thresh, sampleTime := 0.01,
        integral := 0, lastInput := none, lastOutput := none } []
  refine ⟨s', ws2, ?_, hlen, hg, hres, hsome, hhist, ?_⟩
  · unfold set_vload
    dsimp only
    rw [hloop]
    rfl
  · intro hg1
    exact hbound hg1 ⟨rfl, rfl, fun o ho => absurd ho (by simp)⟩

lemma trLoop_run (env : Env) (r : ℚ) (n : ℕ) :
    ∀ s : BoardState,
      (∀ s', trLoop env r n s ≠ .error (.resistanceTooLow, s')) ∧
      histExtends s.hist (endStateT (trLoop env r n s)).hist := by
  induction n with
  | zero =>
    intro s
    exact ⟨fun s' h => by simp [trLoop] at h,
      by rw [trLoop]; exact histExtends_refl _⟩
  | succ n ih =>
    intro s
    rcases hv : s.voltages with _ | v
    · rw [trLoop, hv]
      exact ⟨fun s' h => by simp at h, histExtends_refl _⟩
    · obtain ⟨s1, ws, hset, _, _, _, _, hhist1, _⟩ :=
        set_vload_run env s (v.vin / r * s.resistance) 10
      rw [trLoop, hv]
      dsimp only
      rw [hset]
      exact ⟨(ih s1).1, histExtends_trans _ _ _ hhist1 (ih s1).2⟩

lemma sweepLoop_run (env : Env) (pts : List (ℕ × ℚ)) :
    ∀ (s : BoardState) (data : List SweepRow),
      ∃ s' rows,
        sweepLoop env pts s data = .ok (s', data ++ rows) ∧
        rows.length = pts.length ∧
        rows.map SweepRow.i = pts.map Prod.fst ∧
        histExtends s.hist s'.hist := by
  induction pts with
  | nil =>
    intro s data
    exact ⟨s, [], by simp [sweepLoop], rfl, rfl, histExtends_refl _⟩
  | cons hd tl ih =>
    obtain ⟨i, c⟩ := hd
    intro s data
    obtain ⟨s1, ws, hset, _, _, _, hsome, hhist1, _⟩ :=
      set_vload_run env s (c * s.resistance) 10
    obtain ⟨v, hv⟩ := Option.isSome_iff_exists.1 (hsome (by decide))
    have hset2 : set_current env s c = Except.ok (s1, ws) := hset
    obtain ⟨s', rows, hloop, hlen2, hmap, hhist2⟩ :=
      ih s1 (data ++ [SweepRow.mk i v.vin v.vload (v.vload / s1.resistance)])
    refine ⟨s', SweepRow.mk i v.vin v.vload (v.vload / s1.resistance) :: rows, ?_,
      by simp [hlen2], by simp [hmap], histExtends_trans _ _ _ hhist1 hhist2⟩
    rw [sweepLoop, hset2]
    dsimp only
    rw [hv]
    dsimp only
    rw [hloop]
    simp

lemma length_linspace (a b : ℚ) (n : ℕ) : (linspace a b n).length = n := by
  unfold linspace
  split
  · rename_i h0
    rw [h0]
    rfl
  · rw [List.length_map, List.length_range]

lemma linspace_chain (a b : ℚ) (n : ℕ) (h : a < b) :
    List.Chain' (fun x y => x < y) (linspace a b n) := by
  unfold linspace
  split
  · exact List.chain'_nil
  · rename_i hn
    match n, hn with
    | 1, _ =>
      rw [show List.range 1 = [0] from rfl]
      simp
    | n + 2, _ =>
      rw [List.chain'_map, List.chain'_range_succ]
      intro m hm
      have hc : ((n + 2 - 1 : ℕ) : ℚ) = (n : ℚ) + 1 := by push_cast; ring
      have hd : (0 : ℚ) < (b - a) / ((n + 2 - 1 : ℕ) : ℚ) := by
        rw [hc]
        apply div_pos (by linarith)
        positivity
      have hmc : ((m + 1 : ℕ) : ℚ) = (m : ℚ) + 1 := by push_cast; ring
      rw [hmc]
      nlinarith [hd]

/-! ### Claim theorems -/

/-- Claim C1: for every call to `read_voltages` with read count N > 0 (and a
positive delay), the value returned for each channel equals the statistical
median of the N scaled samples taken for that channel, with `None` hardware
samples substituted by zero before scaling; in particular, when all N
substituted samples are zero the reader returns 0.0 for that channel. -/
theorem claim_C1_reader_median (env : Env) (s : BoardState) (t : ℤ) (w : ℚ)
    (ht : 0 < t) (hw : 0 < w) :
    readResultMed env s t w =
      some { vload := median (vloadList env s t.toNat),
             vin := median (vinList env s t.toNat) } ∧
    ((∀ j < t.toNat, (env.vloadSample (s.reads + j)).getD 0 = 0) →
      readResultMed env s t w =
        some { vload := 0, vin := median (vinList env s t.toNat) }) := by
  have hok := read_voltages_ok env s t w ht hw
  constructor
  · unfold readResultMed
    rw [hok]
    rfl
  · intro hz
    have hall : ∀ x ∈ vloadList env s t.toNat, x = 0 := by
      intro x hx
      obtain ⟨j, hj, rfl⟩ := mem_sampledList _ _ _ _ hx
      simp [scaleSample, hz j hj]
    unfold readResultMed
    rw [hok]
    simp only [readOkMed, median_all_zero _ hall]

theorem claim_C1_witness :
    readResultMed sampleEnv sampleBoard 5 1 =
      some { vload := median (vloadList sampleEnv sampleBoard (5 : ℤ).toNat),
             vin := median (vinList sampleEnv sampleBoard (5 : ℤ).toNat) } ∧
    ((∀ j < (5 : ℤ).toNat,
        (sampleEnv.vloadSample (sampleBoard.reads + j)).getD 0 = 0) →
      readResultMed sampleEnv sampleBoard 5 1 =
        some { vload := 0,
               vin := median (vinList sampleEnv sampleBoard (5 : ℤ).toNat) }) :=
  claim_C1_reader_median sampleEnv sampleBoard 5 1 (by decide) (by norm_num)

/-- Claim C2: during every `set_vload` run, every value written to the PWM
output lies in the window `[gate_thresh, 1]`: the PID output is clamped to
`(0, 1 - gate_thresh)` and `gate_thresh` is added before the write.  (The
window is a window at all only when `gate_thresh ≤ 1`; the session always
has `gate_thresh = 0.48`.) -/
theorem claim_C2_writes_in_window (env : Env) (s : BoardState) (voltage : ℚ)
    (max_tries : ℤ) (hg : s.gate_thresh ≤ 1) :
    ∀ x ∈ vloadWrites env s voltage max_tries, s.gate_thresh ≤ x ∧ x ≤ 1 := by
  obtain ⟨s', ws, hset, _, _, _, _, _, hbound⟩ := set_vload_run env s voltage max_tries
  unfold vloadWrites
  rw [hset]
  exact hbound hg

theorem claim_C2_witness :
    sampleBoard.gate_thresh ≤ 1 ∧
      ∀ x ∈ vloadWrites sampleEnv sampleBoard 3 2,
        sampleBoard.gate_thresh ≤ x ∧ x ≤ 1 :=
  ⟨by norm_num [sampleBoard, Board.init], claim_C2_writes_in_window sampleEnv
    sampleBoard 3 2 (by norm_num [sampleBoard, Board.init])⟩

/-- Claim C3: every `set_vload` call performs at most `max_tries` actuation
writes and returns normally (it never raises), whatever the environment
delivers. -/
theorem claim_C3_bounded_writes (env : Env) (s : BoardState) (voltage : ℚ)
    (max_tries : ℤ) :
    ∃ s' ws, set_vload env s voltage max_tries = .ok (s', ws) ∧
      ws.length ≤ max_tries.toNat := by
  obtain ⟨s', ws, hset, hlen, _⟩ := set_vload_run env s voltage max_tries
  exact ⟨s', ws, hset, le_of_eq hlen⟩

/-- Claim C4: `set_current c` computes the target voltage as
`c * resistance` and delegates to `set_vload` with exactly that target
(and the default `max_tries = 10`); with resistance 10 Ω, current 0.5 A
yields target voltage 5.0 V. -/
theorem claim_C4_ohms_law :
    (∀ (env : Env) (s : BoardState) (c : ℚ),
      set_current env s c = set_vload env s (c * s.resistance) 10) ∧
    (∀ (env : Env) (s : BoardState), s.resistance = 10 →
      set_current env s (1 / 2) = set_vload env s 5 10) := by
  refine ⟨fun env s c => rfl, fun env s h => ?_⟩
  unfold set_current
  rw [h]
  norm_num

theorem claim_C4_witness :
    sampleBoard.resistance = 10 ∧
      set_current sampleEnv sampleBoard (1 / 2) =
        set_vload sampleEnv sampleBoard 5 10 :=
  ⟨by norm_num [sampleBoard, Board.init], claim_C4_ohms_law.2 sampleEnv
    sampleBoard (by norm_num [sampleBoard, Board.init])⟩

/-- Claim C5: `test_resistance r tt` with `r ≤ resistance` raises the
configuration `ValueError` as its first action, with the session state
untouched (no hardware I/O); with `r > resistance` it never raises that
error. -/
theorem claim_C5_resistance_check (env : Env) (s : BoardState) (r tt : ℚ) :
    (r ≤ s.resistance →
      test_resistance env s r tt = .error (.resistanceTooLow, s)) ∧
    (s.resistance < r →
      ∀ s', test_resistance env s r tt ≠ .error (.resistanceTooLow, s')) := by
  constructor
  · intro h
    unfold test_resistance
    rw [if_pos h]
  · intro h s'
    unfold test_resistance
    rw [if_neg (not_le.2 h)]
    exact (trLoop_run env r env.trIters s).1 s'

theorem claim_C5_witness :
    test_resistance sampleEnv sampleBoard 5 9 =
      .error (.resistanceTooLow, sampleBoard) :=
  (claim_C5_resistance_check sampleEnv sampleBoard 5 9).1
    (by norm_num [sampleBoard, Board.init])

/-- Claim C6: `read_voltages` with a non-positive read count or delay raises
`ValueError` immediately; the error carries the unmodified state, so no
hardware read happened and the history buffer is unchanged. -/
theorem claim_C6_arg_validation (env : Env) (s : BoardState) (t : ℤ) (w : ℚ)
    (h : t ≤ 0 ∨ w ≤ 0) :
    read_voltages env s t w = .error (.badArgs, s) := by
  unfold read_voltages
  rw [if_pos h]

theorem claim_C6_witness :
    read_voltages sampleEnv sampleBoard 0 1 = .error (.badArgs, sampleBoard) :=
  claim_C6_arg_validation sampleEnv sampleBoard 0 1 (Or.inl (by decide))

/-- Claim C7: a sweep over `[istart, iend]` with `isteps` points commands
the linearly spaced sequence `linspace istart iend isteps` sequentially
(row `i` carries step index `i`), records exactly `isteps` rows, and the
commanded currents are strictly increasing from row to row. -/
theorem claim_C7_sweep (env : Env) (s : BoardState) (iend istart : ℚ)
    (isteps : ℕ) (h : istart < iend) :
    ∃ s' rows, search_current_limit env s iend istart isteps = .ok (s', rows) ∧
      rows.length = isteps ∧
      rows.map SweepRow.i = List.range isteps ∧
      List.Chain' (fun x y => x < y) (linspace istart iend isteps) := by
  obtain ⟨s', rows, hloop, hlen, hmap, _⟩ :=
    sweepLoop_run env ((linspace istart iend isteps).enum) s []
  refine ⟨s', rows, ?_, ?_, ?_, linspace_chain _ _ _ h⟩
  · unfold search_current_limit
    rw [hloop]
    rfl
  · rw [hlen, List.enum_length, length_linspace]
  · rw [hmap, List.enum_map_fst, length_linspace]

theorem claim_C7_witness :
    ∃ s' rows,
      search_current_limit sampleEnv sampleBoard 1 0 3 = .ok (s', rows) ∧
      rows.length = 3 ∧
      rows.map SweepRow.i = List.range 3 ∧
      List.Chain' (fun x y => x < y) (linspace 0 1 3) :=
  claim_C7_sweep sampleEnv sampleBoard 1 0 3 (by norm_num)

/-- Claim C8: `read_voltages` with read count N appends all N scaled samples
per channel plus N timestamps to the history (not just the median), and
every operation of the session only ever extends the history: previously
appended entries are never modified or removed, whether the operation
returns or raises. -/
theorem claim_C8_history_append_only :
    (∀ (env : Env) (s : BoardState) (t : ℤ) (w : ℚ), 0 < t → 0 < w →
      (endState (read_voltages env s t w)).hist.time =
          s.hist.time ++ stampList env s t.toNat ∧
      (endState (read_voltages env s t w)).hist.vload =
          s.hist.vload ++ vloadList env s t.toNat ∧
      (endState (read_voltages env s t w)).hist.vin =
          s.hist.vin ++ vinList env s t.toNat ∧
      (stampList env s t.toNat).length = t.toNat ∧
      (vloadList env s t.toNat).length = t.toNat ∧
      (vinList env s t.toNat).length = t.toNat) ∧
    (∀ (env : Env) (s : BoardState) (t : ℤ) (w : ℚ),
      histExtends s.hist (endState (read_voltages env s t w)).hist) ∧
    (∀ (env : Env) (s : BoardState) (v : ℚ) (m : ℤ),
      histExtends s.hist (endStateW (set_vload env s v m)).hist) ∧
    (∀ (env : Env) (s : BoardState) (c : ℚ),
      histExtends s.hist (endStateW (set_current env s c)).hist) ∧
    (∀ (env : Env) (s : BoardState) (iend istart : ℚ) (isteps : ℕ),
      histExtends s.hist (endStateS (search_current_limit env s iend istart isteps)).hist) ∧
    (∀ (env : Env) (s : BoardState) (r tt : ℚ),
      histExtends s.hist (endStateT (test_resistance env s r tt)).hist) := by
  have hsetv : ∀ (env : Env) (s : BoardState) (v : ℚ) (m : ℤ),
      histExtends s.hist (endStateW (set_vload env s v m)).hist := by
    intro env s v m
    obtain ⟨s', ws, hset, _, _, _, _, hhist, _⟩ := set_vload_run env s v m
    unfold endStateW
    rw [hset]
    exact hhist
  refine ⟨?_, ?_, hsetv, ?_, ?_, ?_⟩
  · intro env s t w ht hw
    rw [read_voltages_ok env s t w ht hw]
    exact ⟨rfl, rfl, rfl, length_sampledList _ _ _, length_sampledList _ _ _,
      length_sampledList _ _ _⟩
  · intro env s t w
    by_cases h : t ≤ 0 ∨ w ≤ 0
    · unfold read_voltages
      rw [if_pos h]
      exact histExtends_refl _
    · push_neg at h
      rw [read_voltages_ok env s t w h.1 h.2]
      exact ⟨⟨stampList env s t.toNat, rfl⟩, ⟨vloadList env s t.toNat, rfl⟩,
        ⟨vinList env s t.toNat, rfl⟩⟩
  · intro env s c
    exact hsetv env s (c * s.resistance) 10
  · intro env s iend istart isteps
    obtain ⟨s', rows, hloop, _, _, hhist⟩ :=
      sweepLoop_run env ((linspace istart iend isteps).enum) s []
    unfold search_current_limit endStateS
    rw [hloop]
    exact hhist
  · intro env s r tt
    by_cases h : r ≤ s.resistance
    · unfold test_resistance
      rw [if_pos h]
      exact histExtends_refl _
    · unfold test_resistance
      rw [if_neg h]
      exact (trLoop_run env r env.trIters s).2

theorem claim_C8_witness :
    (endState (read_voltages sampleEnv sampleBoard 3 1)).hist.time =
        sampleBoard.hist.time ++ stampList sampleEnv sampleBoard (3 : ℤ).toNat ∧
    (endState (read_voltages sampleEnv sampleBoard 3 1)).hist.vload =
        sampleBoard.hist.vload ++ vloadList sampleEnv sampleBoard (3 : ℤ).toNat ∧
    (endState (read_voltages sampleEnv sampleBoard 3 1)).hist.vin =
        sampleBoard.hist.vin ++ vinList sampleEnv sampleBoard (3 : ℤ).toNat ∧
    (stampList sampleEnv sampleBoard (3 : ℤ).toNat).length = (3 : ℤ).toNat ∧
    (vloadList sampleEnv sampleBoard (3 : ℤ).toNat).length = (3 : ℤ).toNat ∧
    (vinList sampleEnv sampleBoard (3 : ℤ).toNat).length = (3 : ℤ).toNat :=
  claim_C8_history_append_only.1 sampleEnv sampleBoard 3 1 (by decide) (by norm_num)

/-- Claim C9: whatever `gate_thresh` argument the constructor receives, the
stored gate threshold is the constant 0.48 — the argument is ignored, so
the whole constructed session (and hence the clamp window `set_vload`
derives from it) is independent of the configured gate threshold. -/
theorem claim_C9_gate_thresh_constant :
    (∀ ag svd res g vcc, (Board.init ag svd res g vcc).gate_thresh = 0.48) ∧
    (∀ ag svd res g g' vcc,
      Board.init ag svd res g vcc = Board.init ag svd res g' vcc) :=
  ⟨fun _ _ _ _ _ => rfl, fun _ _ _ _ _ _ => rfl⟩

/-- Claim C10: `set_vload` with `max_tries = m > 0` performs exactly `m`
read→compute→write iterations — one PWM write per iteration, for every
environment, so there is no tolerance-based early exit on convergence. -/
theorem claim_C10_exact_iterations (env : Env) (s : BoardState) (voltage : ℚ)
    (max_tries : ℤ) (hm : 0 < max_tries) :
    ∃ s' ws, set_vload env s voltage max_tries = .ok (s', ws) ∧
      ws.length = max_tries.toNat := by
  obtain ⟨s', ws, hset, hlen, _⟩ := set_vload_run env s voltage max_tries
  exact ⟨s', ws, hset, hlen⟩

theorem claim_C10_witness :
    ∃ s' ws, set_vload sampleEnv sampleBoard 3 2 = .ok (s', ws) ∧
      ws.length = (2 : ℤ).toNat :=
  claim_C10_exact_iterations sampleEnv sampleBoard 3 2 (by decide)

end PowerSupplyTester
